import Mathlib

set_option maxHeartbeats 1000000
set_option linter.unnecessarySeqFocus false

/-!
A verification development for `analyze_json_structure.py`.

The file embeds the value tree consumed by the analyzer, the
shape-descriptor dictionaries produced by `analyze_structure`, the
analyzer itself (with the `seen_paths` set threaded explicitly), and the
text renderer `print_structure`, and proves the documented properties of
the analyzer and renderer.
-/

/-- The parsed value tree handed to the analyzer: the JSON union plus a
fallback constructor `other` standing for any non-JSON runtime object,
carrying its raw type name (the only thing the analyzer reads from it). -/
inductive JsonValue : Type where
  | null : JsonValue
  | bool (b : Bool) : JsonValue
  | int (n : Int) : JsonValue
  | num (q : ℚ) : JsonValue
  | str (s : String) : JsonValue
  | arr (xs : List JsonValue) : JsonValue
  | obj (kvs : List (String × JsonValue)) : JsonValue
  | other (typeName : String) : JsonValue

/-- A shape descriptor: the dictionary built by `analyze_structure`, with one
optional field per key the code may insert.  `items` is either a single
descriptor (homogeneous array) or a list of descriptors (heterogeneous);
`properties` is an insertion-ordered association list, like a dict. -/
inductive Descriptor : Type where
  | mk (type : String) (note : Option String) (sample : Option String)
      (length : Option Nat) (items : Option (Descriptor ⊕ List Descriptor))
      (properties : Option (List (String × Descriptor))) : Descriptor

def Descriptor.type : Descriptor → String
  | .mk t _ _ _ _ _ => t

def Descriptor.note : Descriptor → Option String
  | .mk _ n _ _ _ _ => n

def Descriptor.sample : Descriptor → Option String
  | .mk _ _ s _ _ _ => s

def Descriptor.length : Descriptor → Option Nat
  | .mk _ _ _ l _ _ => l

def Descriptor.items : Descriptor → Option (Descriptor ⊕ List Descriptor)
  | .mk _ _ _ _ i _ => i

def Descriptor.properties : Descriptor → Option (List (String × Descriptor))
  | .mk _ _ _ _ _ p => p

mutual

def Descriptor.decEq (a b : Descriptor) : Decidable (a = b) :=
  match a, b with
  | .mk t1 n1 s1 l1 i1 p1, .mk t2 n2 s2 l2 i2 p2 =>
    if ht : t1 = t2 then
      if hn : n1 = n2 then
        if hs : s1 = s2 then
          if hl : l1 = l2 then
            match decEqOptItems i1 i2 with
            | .isTrue hi =>
              match decEqOptProps p1 p2 with
              | .isTrue hp => .isTrue (by rw [ht, hn, hs, hl, hi, hp])
              | .isFalse hp => .isFalse (fun h => by injection h; exact hp (by assumption))
            | .isFalse hi => .isFalse (fun h => by injection h; exact hi (by assumption))
          else .isFalse (fun h => by injection h; exact hl (by assumption))
        else .isFalse (fun h => by injection h; exact hs (by assumption))
      else .isFalse (fun h => by injection h; exact hn (by assumption))
    else .isFalse (fun h => by injection h; exact ht (by assumption))
termination_by structural a

def decEqOptItems (a b : Option (Descriptor ⊕ List Descriptor)) : Decidable (a = b) :=
  match a, b with
  | none, none => .isTrue rfl
  | none, some _ => .isFalse (fun h => by injection h)
  | some _, none => .isFalse (fun h => by injection h)
  | some x, some y =>
    match decEqSumItems x y with
    | .isTrue h => .isTrue (by rw [h])
    | .isFalse h => .isFalse (fun hh => by injection hh; exact h (by assumption))
termination_by structural a

def decEqSumItems (a b : Descriptor ⊕ List Descriptor) : Decidable (a = b) :=
  match a, b with
  | .inl x, .inl y =>
    match Descriptor.decEq x y with
    | .isTrue h => .isTrue (by rw [h])
    | .isFalse h => .isFalse (fun hh => by injection hh; exact h (by assumption))
  | .inl _, .inr _ => .isFalse (fun h => by injection h)
  | .inr _, .inl _ => .isFalse (fun h => by injection h)
  | .inr x, .inr y =>
    match decEqDescList x y with
    | .isTrue h => .isTrue (by rw [h])
    | .isFalse h => .isFalse (fun hh => by injection hh; exact h (by assumption))
termination_by structural a

def decEqDescList (a b : List Descriptor) : Decidable (a = b) :=
  match a, b with
  | [], [] => .isTrue rfl
  | [], _ :: _ => .isFalse (fun h => by injection h)
  | _ :: _, [] => .isFalse (fun h => by injection h)
  | x :: xs, y :: ys =>
    match Descriptor.decEq x y with
    | .isTrue h1 =>
      match decEqDescList xs ys with
      | .isTrue h2 => .isTrue (by rw [h1, h2])
      | .isFalse h2 => .isFalse (fun hh => by injection hh; exact h2 (by assumption))
    | .isFalse h1 => .isFalse (fun hh => by injection hh; exact h1 (by assumption))
termination_by structural a

def decEqOptProps (a b : Option (List (String × Descriptor))) : Decidable (a = b) :=
  match a, b with
  | none, none => .isTrue rfl
  | none, some _ => .isFalse (fun h => by injection h)
  | some _, none => .isFalse (fun h => by injection h)
  | some x, some y =>
    match decEqPropsList x y with
    | .isTrue h => .isTrue (by rw [h])
    | .isFalse h => .isFalse (fun hh => by injection hh; exact h (by assumption))
termination_by structural a

def decEqPropsList (a b : List (String × Descriptor)) : Decidable (a = b) :=
  match a, b with
  | [], [] => .isTrue rfl
  | [], _ :: _ => .isFalse (fun h => by injection h)
  | _ :: _, [] => .isFalse (fun h => by injection h)
  | (k1, v1) :: xs, (k2, v2) :: ys =>
    if hk : k1 = k2 then
      match Descriptor.decEq v1 v2 with
      | .isTrue h1 =>
        match decEqPropsList xs ys with
        | .isTrue h2 => .isTrue (by rw [hk, h1, h2])
        | .isFalse h2 => .isFalse (fun hh => by injection hh; exact h2 (by assumption))
      | .isFalse h1 => .isFalse (fun hh => by
          injection hh with hh1 hh2
          exact h1 (congrArg Prod.snd hh1))
    else .isFalse (fun hh => by
          injection hh with hh1 hh2
          exact hk (congrArg Prod.fst hh1))
termination_by structural a

end

instance : DecidableEq Descriptor := Descriptor.decEq

mutual

/-- Python `==` on descriptor dictionaries (deep equality): all present keys
must match, `properties` sub-dicts are compared as dicts (key lookup,
insertion order irrelevant), `items` lists are compared position by
position, and a single-descriptor `items` never equals a list `items`. -/
def pyEq (a b : Descriptor) : Bool :=
  match a, b with
  | .mk t1 n1 s1 l1 i1 p1, .mk t2 n2 s2 l2 i2 p2 =>
    t1 == t2 && n1 == n2 && s1 == s2 && l1 == l2 && pyEqOptItems i1 i2
      && pyEqOptProps p1 p2
termination_by structural a

def pyEqOptItems (a b : Option (Descriptor ⊕ List Descriptor)) : Bool :=
  match a, b with
  | none, none => true
  | none, some _ => false
  | some _, none => false
  | some (.inl x), some (.inl y) => pyEq x y
  | some (.inl _), some (.inr _) => false
  | some (.inr _), some (.inl _) => false
  | some (.inr x), some (.inr y) => pyEqList x y
termination_by structural a

def pyEqList (a b : List Descriptor) : Bool :=
  match a, b with
  | [], [] => true
  | [], _ :: _ => false
  | _ :: _, [] => false
  | x :: xs, y :: ys => pyEq x y && pyEqList xs ys
termination_by structural a

def pyEqOptProps (a b : Option (List (String × Descriptor))) : Bool :=
  match a, b with
  | none, none => true
  | none, some _ => false
  | some _, none => false
  | some x, some y => x.length == y.length && pyEqPropsAll x y
termination_by structural a

def pyEqPropsAll (a b : List (String × Descriptor)) : Bool :=
  match a with
  | [] => true
  | (k, v) :: rest =>
    (match b.lookup k with
     | some w => pyEq v w
     | none => false) && pyEqPropsAll rest b
termination_by structural a

end

/-- `get_type_name`: readable type name, first matching branch wins. -/
def get_type_name : JsonValue → String
  | .null => "null"
  | .bool _ => "boolean"
  | .int _ => "integer"
  | .num _ => "number"
  | .str _ => "string"
  | .arr _ => "array"
  | .obj _ => "object"
  | .other typeName => typeName

/-- The sentinel dictionary returned when the depth limit is exceeded. -/
def truncatedDesc : Descriptor :=
  .mk "..." (some "max depth reached") none none none none

mutual

/-- `analyze_structure`: recursively analyze the value tree.  The mutated
`seen_paths` set is threaded explicitly and returned alongside the
descriptor. -/
def analyze_structure (v : JsonValue) (path : String) (depth max_depth : Nat)
    (seen : List String) : Descriptor × List String :=
  if depth > max_depth then
    (truncatedDesc, seen)
  else
    match v with
    | .arr xs =>
      if 0 < xs.length then
        let sample_size := min 3 xs.length
        let sr := analyzeItems xs sample_size 0 path depth max_depth seen
        let samples := sr.1
        let desc :=
          match samples with
          | s0 :: _ =>
            if samples.all (fun s => pyEq s s0) then
              Descriptor.mk (get_type_name (.arr xs)) none none (some xs.length)
                (some (.inl s0)) none
            else
              Descriptor.mk (get_type_name (.arr xs)) none none (some xs.length)
                (some (.inr samples)) none
          | [] =>
            Descriptor.mk (get_type_name (.arr xs)) none none (some xs.length)
              (some (.inr samples)) none
        (desc, sr.2)
      else
        (Descriptor.mk (get_type_name (.arr xs)) none none (some 0) none none, seen)
    | .obj kvs =>
      let pr := analyzeProperties kvs path depth max_depth seen
      (Descriptor.mk (get_type_name (.obj kvs)) none none none none (some pr.1), pr.2)
    | .str s =>
      let smp := if s.length > 50 then s.take 47 ++ "..." else s
      (Descriptor.mk (get_type_name (.str s)) none (some smp) none none none, seen)
    | .null => (Descriptor.mk (get_type_name .null) none none none none none, seen)
    | .bool b => (Descriptor.mk (get_type_name (.bool b)) none none none none none, seen)
    | .int n => (Descriptor.mk (get_type_name (.int n)) none none none none none, seen)
    | .num q => (Descriptor.mk (get_type_name (.num q)) none none none none none, seen)
    | .other t => (Descriptor.mk (get_type_name (.other t)) none none none none none, seen)
termination_by structural v

/-- The sampling loop `for i in range(sample_size)` of the array branch:
analyze the first `count` elements of `l` (indices starting at `i`),
threading `seen_paths`, and collect the per-element descriptors in order. -/
def analyzeItems (l : List JsonValue) (count : Nat) (i : Nat) (path : String)
    (depth max_depth : Nat) (seen : List String) : List Descriptor × List String :=
  match count, l with
  | 0, _ => ([], seen)
  | _ + 1, [] => ([], seen)
  | c + 1, x :: rest =>
    let r := analyze_structure x (path ++ "[" ++ toString i ++ "]") (depth + 1)
      max_depth seen
    let rs := analyzeItems rest c (i + 1) path depth max_depth r.2
    (r.1 :: rs.1, rs.2)
termination_by structural l

/-- The key loop of the dict branch: for each key in iteration order, skip it
when its child path was already seen, otherwise mark the path seen and
analyze the value at `depth + 1`. -/
def analyzeProperties (l : List (String × JsonValue)) (path : String)
    (depth max_depth : Nat) (seen : List String) :
    List (String × Descriptor) × List String :=
  match l with
  | [] => ([], seen)
  | (key, value) :: rest =>
    let child_path := path ++ "." ++ key
    if child_path ∈ seen then
      analyzeProperties rest path depth max_depth seen
    else
      let r := analyze_structure value child_path (depth + 1) max_depth
        (child_path :: seen)
      let rs := analyzeProperties rest path depth max_depth r.2
      ((key, r.1) :: rs.1, rs.2)
termination_by structural l

end

/-- One analysis run with the Python default arguments: path `"root"`,
depth `0`, `max_depth` `5`, and a fresh empty `seen_paths`. -/
def analyzeRoot (v : JsonValue) : Descriptor :=
  (analyze_structure v "root" 0 5 []).1

mutual

/-- Ghost-instrumented copy of `analyze_structure`: identical control flow and
results, but additionally returns the list of `path` arguments of every
`analyze_structure` call performed, in call order (the call trace). -/
def analyzeT (v : JsonValue) (path : String) (depth max_depth : Nat)
    (seen : List String) : (Descriptor × List String) × List String :=
  if depth > max_depth then
    ((truncatedDesc, seen), [path])
  else
    match v with
    | .arr xs =>
      if 0 < xs.length then
        let sample_size := min 3 xs.length
        let sr := analyzeItemsT xs sample_size 0 path depth max_depth seen
        let samples := sr.1.1
        let desc :=
          match samples with
          | s0 :: _ =>
            if samples.all (fun s => pyEq s s0) then
              Descriptor.mk (get_type_name (.arr xs)) none none (some xs.length)
                (some (.inl s0)) none
            else
              Descriptor.mk (get_type_name (.arr xs)) none none (some xs.length)
                (some (.inr samples)) none
          | [] =>
            Descriptor.mk (get_type_name (.arr xs)) none none (some xs.length)
              (some (.inr samples)) none
        ((desc, sr.1.2), path :: sr.2)
      else
        ((Descriptor.mk (get_type_name (.arr xs)) none none (some 0) none none, seen),
          [path])
    | .obj kvs =>
      let pr := analyzePropertiesT kvs path depth max_depth seen
      ((Descriptor.mk (get_type_name (.obj kvs)) none none none none (some pr.1.1),
        pr.1.2), path :: pr.2)
    | .str s =>
      let smp := if s.length > 50 then s.take 47 ++ "..." else s
      ((Descriptor.mk (get_type_name (.str s)) none (some smp) none none none, seen),
        [path])
    | .null => ((Descriptor.mk (get_type_name .null) none none none none none, seen), [path])
    | .bool b =>
      ((Descriptor.mk (get_type_name (.bool b)) none none none none none, seen), [path])
    | .int n =>
      ((Descriptor.mk (get_type_name (.int n)) none none none none none, seen), [path])
    | .num q =>
      ((Descriptor.mk (get_type_name (.num q)) none none none none none, seen), [path])
    | .other t =>
      ((Descriptor.mk (get_type_name (.other t)) none none none none none, seen), [path])
termination_by structural v

/-- Instrumented copy of `analyzeItems`; concatenates the element traces. -/
def analyzeItemsT (l : List JsonValue) (count : Nat) (i : Nat) (path : String)
    (depth max_depth : Nat) (seen : List String) :
    (List Descriptor × List String) × List String :=
  match count, l with
  | 0, _ => (([], seen), [])
  | _ + 1, [] => (([], seen), [])
  | c + 1, x :: rest =>
    let r := analyzeT x (path ++ "[" ++ toString i ++ "]") (depth + 1) max_depth seen
    let rs := analyzeItemsT rest c (i + 1) path depth max_depth r.1.2
    ((r.1.1 :: rs.1.1, rs.1.2), r.2 ++ rs.2)
termination_by structural l

/-- Instrumented copy of `analyzeProperties`; concatenates the child traces. -/
def analyzePropertiesT (l : List (String × JsonValue)) (path : String)
    (depth max_depth : Nat) (seen : List String) :
    (List (String × Descriptor) × List String) × List String :=
  match l with
  | [] => (([], seen), [])
  | (key, value) :: rest =>
    let child_path := path ++ "." ++ key
    if child_path ∈ seen then
      analyzePropertiesT rest path depth max_depth seen
    else
      let r := analyzeT value child_path (depth + 1) max_depth (child_path :: seen)
      let rs := analyzePropertiesT rest path depth max_depth r.1.2
      (((key, r.1.1) :: rs.1.1, rs.1.2), r.2 ++ rs.2)
termination_by structural l

end

mutual

/-- A value tree is a conforming JSON document: built only from the JSON
union (no fallback runtime objects), with keys unique within each object. -/
def conforming : JsonValue → Bool
  | .null => true
  | .bool _ => true
  | .int _ => true
  | .num _ => true
  | .str _ => true
  | .other _ => false
  | .arr xs => conformingItems xs
  | .obj kvs => decide ((kvs.map Prod.fst).Nodup) && conformingProperties kvs
termination_by structural v => v

def conformingItems : List JsonValue → Bool
  | [] => true
  | x :: rest => conforming x && conformingItems rest
termination_by structural l => l

def conformingProperties : List (String × JsonValue) → Bool
  | [] => true
  | (_, v) :: rest => conforming v && conformingProperties rest
termination_by structural l => l

end

/-- The indentation prefix `"  " * indent`: two spaces per indent level. -/
def indentStr : Nat → String
  | 0 => ""
  | n + 1 => "  " ++ indentStr n

mutual

/-- `print_structure`: pretty-print a descriptor.  The Python function writes
to stdout; the embedding returns the written text, with `print(x)`
contributing `x ++ "\n"` and `print(x, end="")` contributing `x`. -/
def print_structure (structure' : Descriptor) (indent : Nat) : String :=
  let ind := indentStr indent
  match structure' with
  | .mk ty _ sampleF lengthF itemsF propsF =>
    if ty = "object" then
      (ind ++ "Object \x7b" ++ "\n")
      ++ (match propsF with
          | some props => printProperties props indent
          | none => "")
      ++ (ind ++ "\x7d" ++ "\n")
    else if ty = "array" then
      let length := match lengthF with
        | some n => n
        | none => 0
      (ind ++ "Array[" ++ toString length ++ "] \x7b" ++ "\n")
      ++ (match itemsF with
          | some (.inr itemList) => printItemList itemList 0 indent
          | some (.inl item) =>
            (ind ++ "  items:" ++ "\n") ++ print_structure item (indent + 2)
          | none => "")
      ++ (ind ++ "\x7d" ++ "\n")
    else
      (ind ++ ty)
      ++ (match sampleF with
          | some s => " (e.g., \"" ++ s ++ "\")"
          | none => "")
termination_by structural structure'

/-- The property loop of the `object` branch of `print_structure`. -/
def printProperties (props : List (String × Descriptor)) (indent : Nat) : String :=
  match props with
  | [] => ""
  | (key, value) :: rest =>
    let ind := indentStr indent
    (ind ++ "  " ++ key ++ ":")
    ++ (if value.type = "object" ∨ value.type = "array" then
          "\n" ++ print_structure value (indent + 2)
        else
          (" " ++ value.type)
          ++ (match value.sample with
              | some s => " (e.g., \"" ++ s ++ "\")"
              | none => "")
          ++ "\n")
    ++ printProperties rest indent
termination_by structural props

/-- The `enumerate(structure["items"])` loop of the `array` branch. -/
def printItemList (l : List Descriptor) (i : Nat) (indent : Nat) : String :=
  match l with
  | [] => ""
  | item :: rest =>
    (indentStr indent ++ "  [" ++ toString i ++ "]:" ++ "\n")
    ++ print_structure item (indent + 2)
    ++ printItemList rest (i + 1) indent
termination_by structural l

end

/-- Number of populated optional field groups among
`sample`, `length`/`items`, `properties`. -/
def populatedGroups (d : Descriptor) : Nat :=
  (if d.sample.isSome then 1 else 0) +
  (if d.length.isSome ∨ d.items.isSome then 1 else 0) +
  (if d.properties.isSome then 1 else 0)

/-- A conforming document on which two distinct nestings produce the same
dotted path `root.a.x`. -/
def dupPathDoc : JsonValue :=
  .obj [("a", .obj [("x", .int 1)]), ("a.x", .int 2)]

theorem strlen_mk (l : List Char) : (String.mk l).length = l.length := rfl

theorem analyze_type_eq (v : JsonValue) (path : String) (depth max_depth : Nat)
    (seen : List String) (h : depth ≤ max_depth) :
    ((analyze_structure v path depth max_depth seen).1).type = get_type_name v := by
  have hnd : ¬ depth > max_depth := by omega
  cases v <;> simp only [analyze_structure, hnd, if_false, ite_false] <;>
    (repeat' split) <;> rfl

theorem analyze_note_none (v : JsonValue) (path : String) (depth max_depth : Nat)
    (seen : List String) (h : depth ≤ max_depth) :
    ((analyze_structure v path depth max_depth seen).1).note = none := by
  have hnd : ¬ depth > max_depth := by omega
  cases v <;> simp only [analyze_structure, hnd, if_false, ite_false] <;>
    (repeat' split) <;> rfl

theorem analyze_fields (v : JsonValue) (path : String) (depth max_depth : Nat)
    (seen : List String) (h : depth ≤ max_depth) :
    (((analyze_structure v path depth max_depth seen).1).sample.isSome ↔ ∃ s, v = .str s)
    ∧ (((analyze_structure v path depth max_depth seen).1).length.isSome ↔ ∃ xs, v = .arr xs)
    ∧ (((analyze_structure v path depth max_depth seen).1).items.isSome ↔
        ∃ xs, v = .arr xs ∧ xs ≠ [])
    ∧ (((analyze_structure v path depth max_depth seen).1).properties.isSome ↔
        ∃ kvs, v = .obj kvs) := by
  have hnd : ¬ depth > max_depth := by omega
  cases v <;> simp only [analyze_structure, hnd, if_false, ite_false] <;>
    (repeat' split) <;>
    simp_all [Descriptor.sample, Descriptor.length, Descriptor.items, Descriptor.properties]
  all_goals (intro hx; subst hx; simp_all)

theorem analyze_str_eq (s : String) (path : String) (depth max_depth : Nat)
    (seen : List String) (h : depth ≤ max_depth) :
    analyze_structure (.str s) path depth max_depth seen =
      (.mk "string" none (some (if s.length > 50 then s.take 47 ++ "..." else s))
        none none none, seen) := by
  have hnd : ¬ depth > max_depth := by omega
  simp only [analyze_structure, hnd, if_false, ite_false, get_type_name]

theorem analyze_obj_eq (kvs : List (String × JsonValue)) (path : String)
    (depth max_depth : Nat) (seen : List String) (h : depth ≤ max_depth) :
    analyze_structure (.obj kvs) path depth max_depth seen =
      (.mk "object" none none none none
        (some (analyzeProperties kvs path depth max_depth seen).1),
       (analyzeProperties kvs path depth max_depth seen).2) := by
  have hnd : ¬ depth > max_depth := by omega
  simp only [analyze_structure, hnd, if_false, ite_false, get_type_name]

theorem analyzeItems_length (l : List JsonValue) (count i : Nat) (path : String)
    (depth max_depth : Nat) (seen : List String) :
    ((analyzeItems l count i path depth max_depth seen).1).length = min count l.length := by
  induction l generalizing count i seen with
  | nil => cases count <;> simp [analyzeItems]
  | cons x rest ih =>
    cases count with
    | zero => simp [analyzeItems]
    | succ c => simp [analyzeItems, ih]; omega

theorem analyzeItems_take (l : List JsonValue) (count i : Nat) (path : String)
    (depth max_depth : Nat) (seen : List String) :
    analyzeItems l count i path depth max_depth seen =
      analyzeItems (l.take count) count i path depth max_depth seen := by
  induction l generalizing count i seen with
  | nil => simp
  | cons x rest ih =>
    cases count with
    | zero => simp [analyzeItems]
    | succ c =>
      simp only [List.take_succ_cons, analyzeItems]
      rw [← ih]

theorem analyze_arr_length (xs : List JsonValue) (path : String)
    (depth max_depth : Nat) (seen : List String) (h : depth ≤ max_depth) :
    ((analyze_structure (.arr xs) path depth max_depth seen).1).length =
      some xs.length := by
  have hnd : ¬ depth > max_depth := by omega
  simp only [analyze_structure, hnd, if_false, ite_false]
  split
  · (repeat' split) <;> rfl
  · rename_i h0
    have : xs = [] := by
      cases xs with
      | nil => rfl
      | cons a l => simp at h0
    simp [this, Descriptor.length]

theorem analyze_arr_seen (xs : List JsonValue) (path : String)
    (depth max_depth : Nat) (seen : List String) (h : depth ≤ max_depth) :
    (analyze_structure (.arr xs) path depth max_depth seen).2 =
      (analyzeItems xs (min 3 xs.length) 0 path depth max_depth seen).2 := by
  have hnd : ¬ depth > max_depth := by omega
  simp only [analyze_structure, hnd, if_false, ite_false]
  split
  · (repeat' split) <;> rfl
  · rename_i h0
    have hx : xs = [] := by
      cases xs with
      | nil => rfl
      | cons a l => simp at h0
    subst hx
    simp [analyzeItems]

theorem analyze_arr_items (xs : List JsonValue) (path : String)
    (depth max_depth : Nat) (seen : List String) (s0 : Descriptor)
    (rest : List Descriptor) (h : depth ≤ max_depth)
    (h0 : (analyzeItems xs (min 3 xs.length) 0 path depth max_depth seen).1 = s0 :: rest) :
    ((analyze_structure (.arr xs) path depth max_depth seen).1).items =
      if ∀ s ∈ s0 :: rest, pyEq s s0 = true then
        some (.inl s0)
      else some (.inr (s0 :: rest)) := by
  have hnd : ¬ depth > max_depth := by omega
  have hpos : 0 < xs.length := by
    by_contra hc
    have hx : xs = [] := by
      cases xs with
      | nil => rfl
      | cons a l => simp at hc
    subst hx
    simp [analyzeItems] at h0
  simp only [analyze_structure, hnd, if_false, ite_false, hpos, if_true, ite_true, h0]
  by_cases hall : ∀ s ∈ s0 :: rest, pyEq s s0 = true
  · have hb : ((s0 :: rest).all fun s => pyEq s s0) = true := List.all_eq_true.2 hall
    simp only [hb, if_true, ite_true, Descriptor.items]
    rw [if_pos hall]
  · have hb : ¬ (((s0 :: rest).all fun s => pyEq s s0) = true) :=
      fun hc => hall (List.all_eq_true.1 hc)
    simp only [hb, if_false, ite_false]
    rw [if_neg hall]
    rfl

theorem analyze_seen_suffix (v : JsonValue) (path : String) (depth max_depth : Nat)
    (seen : List String) : seen <:+ (analyze_structure v path depth max_depth seen).2 := by
  refine analyze_structure.induct
    (fun v path depth m seen => seen <:+ (analyze_structure v path depth m seen).2)
    (fun l path depth m seen => seen <:+ (analyzeProperties l path depth m seen).2)
    (fun l c i path depth m seen => seen <:+ (analyzeItems l c i path depth m seen).2)
    ?_ ?_ ?_ ?_ ?_ ?_ ?_ ?_ ?_ ?_ ?_ ?_ ?_ ?_ ?_ ?_ v path depth max_depth seen
  · intro t path depth m seen h
    cases t <;> simp [analyze_structure, h]
  · intro path depth m seen hnd xs hpos sample_size ih
    rw [analyze_arr_seen xs path depth m seen (by omega)]
    exact ih
  · intro path depth m seen hnd xs hneg
    have hx : xs = [] := by cases xs with
      | nil => rfl
      | cons a l => simp at hneg
    subst hx
    simp [analyze_structure, hnd]
  · intro path depth m seen hnd kvs ih
    rw [analyze_obj_eq kvs path depth m seen (by omega)]
    exact ih
  · intro path depth m seen hnd s
    simp [analyze_structure, hnd]
  · intro path depth m seen hnd
    simp [analyze_structure, hnd]
  · intro path depth m seen hnd b
    simp [analyze_structure, hnd]
  · intro path depth m seen hnd n
    simp [analyze_structure, hnd]
  · intro path depth m seen hnd q
    simp [analyze_structure, hnd]
  · intro path depth m seen hnd t
    simp [analyze_structure, hnd]
  · intro t i path depth m seen
    simp [analyzeItems]
  · intro i path depth m seen n
    simp [analyzeItems]
  · intro i path depth m seen c x rest r ih1 ih2
    simp only [analyzeItems]
    exact ih1.trans ih2
  · intro path depth m seen
    simp [analyzeProperties]
  · intro path depth m seen key value rest child_path hin ih
    simp only [analyzeProperties, if_pos hin]
    exact ih
  · intro path depth m seen key value rest child_path hnot r ih1 ih2
    simp only [analyzeProperties, if_neg hnot]
    exact ((List.suffix_cons child_path seen).trans ih1).trans ih2

theorem analyze_seen_nodup (v : JsonValue) (path : String) (depth max_depth : Nat)
    (seen : List String) (h : seen.Nodup) :
    ((analyze_structure v path depth max_depth seen).2).Nodup := by
  refine analyze_structure.induct
    (fun v path depth m seen => seen.Nodup → ((analyze_structure v path depth m seen).2).Nodup)
    (fun l path depth m seen => seen.Nodup → ((analyzeProperties l path depth m seen).2).Nodup)
    (fun l c i path depth m seen =>
      seen.Nodup → ((analyzeItems l c i path depth m seen).2).Nodup)
    ?_ ?_ ?_ ?_ ?_ ?_ ?_ ?_ ?_ ?_ ?_ ?_ ?_ ?_ ?_ ?_ v path depth max_depth seen h
  · intro t path depth m seen h hs
    cases t <;> simp [analyze_structure, h, hs]
  · intro path depth m seen hnd xs hpos sample_size ih hs
    rw [analyze_arr_seen xs path depth m seen (by omega)]
    exact ih hs
  · intro path depth m seen hnd xs hneg hs
    have hx : xs = [] := by cases xs with
      | nil => rfl
      | cons a l => simp at hneg
    subst hx
    simpa [analyze_structure, hnd] using hs
  · intro path depth m seen hnd kvs ih hs
    rw [analyze_obj_eq kvs path depth m seen (by omega)]
    exact ih hs
  · intro path depth m seen hnd s hs
    simpa [analyze_structure, hnd] using hs
  · intro path depth m seen hnd hs
    simpa [analyze_structure, hnd] using hs
  · intro path depth m seen hnd b hs
    simpa [analyze_structure, hnd] using hs
  · intro path depth m seen hnd n hs
    simpa [analyze_structure, hnd] using hs
  · intro path depth m seen hnd q hs
    simpa [analyze_structure, hnd] using hs
  · intro path depth m seen hnd t hs
    simpa [analyze_structure, hnd] using hs
  · intro t i path depth m seen hs
    simpa [analyzeItems] using hs
  · intro i path depth m seen n hs
    simpa [analyzeItems] using hs
  · intro i path depth m seen c x rest r ih1 ih2 hs
    simp only [analyzeItems]
    exact ih2 (ih1 hs)
  · intro path depth m seen hs
    simpa [analyzeProperties] using hs
  · intro path depth m seen key value rest child_path hin ih hs
    simp only [analyzeProperties, if_pos hin]
    exact ih hs
  · intro path depth m seen key value rest child_path hnot r ih1 ih2 hs
    simp only [analyzeProperties, if_neg hnot]
    exact ih2 (ih1 (List.nodup_cons.2 ⟨hnot, hs⟩))

theorem analyze_seen_additions (v : JsonValue) (path : String) (depth max_depth : Nat)
    (seen : List String) :
    ∀ s ∈ (analyze_structure v path depth max_depth seen).2,
      s ∈ seen ∨ ∃ q k, s = q ++ "." ++ k := by
  refine analyze_structure.induct
    (fun v path depth m seen =>
      ∀ s ∈ (analyze_structure v path depth m seen).2, s ∈ seen ∨ ∃ q k, s = q ++ "." ++ k)
    (fun l path depth m seen =>
      ∀ s ∈ (analyzeProperties l path depth m seen).2, s ∈ seen ∨ ∃ q k, s = q ++ "." ++ k)
    (fun l c i path depth m seen =>
      ∀ s ∈ (analyzeItems l c i path depth m seen).2, s ∈ seen ∨ ∃ q k, s = q ++ "." ++ k)
    ?_ ?_ ?_ ?_ ?_ ?_ ?_ ?_ ?_ ?_ ?_ ?_ ?_ ?_ ?_ ?_ v path depth max_depth seen
  · intro t path depth m seen h s hs
    cases t <;> simp [analyze_structure, h] at hs <;> exact Or.inl hs
  · intro path depth m seen hnd xs hpos sample_size ih s hs
    rw [analyze_arr_seen xs path depth m seen (by omega)] at hs
    exact ih s hs
  · intro path depth m seen hnd xs hneg s hs
    have hx : xs = [] := by cases xs with
      | nil => rfl
      | cons a l => simp at hneg
    subst hx
    simp [analyze_structure, hnd] at hs
    exact Or.inl hs
  · intro path depth m seen hnd kvs ih s hs
    rw [analyze_obj_eq kvs path depth m seen (by omega)] at hs
    exact ih s hs
  · intro path depth m seen hnd s0 s hs
    simp [analyze_structure, hnd] at hs
    exact Or.inl hs
  · intro path depth m seen hnd s hs
    simp [analyze_structure, hnd] at hs
    exact Or.inl hs
  · intro path depth m seen hnd b s hs
    simp [analyze_structure, hnd] at hs
    exact Or.inl hs
  · intro path depth m seen hnd n s hs
    simp [analyze_structure, hnd] at hs
    exact Or.inl hs
  · intro path depth m seen hnd q s hs
    simp [analyze_structure, hnd] at hs
    exact Or.inl hs
  · intro path depth m seen hnd t s hs
    simp [analyze_structure, hnd] at hs
    exact Or.inl hs
  · intro t i path depth m seen s hs
    simp [analyzeItems] at hs
    exact Or.inl hs
  · intro i path depth m seen n s hs
    simp [analyzeItems] at hs
    exact Or.inl hs
  · intro i path depth m seen c x rest r ih1 ih2 s hs
    simp only [analyzeItems] at hs
    rcases ih2 s hs with h1 | h2
    · exact ih1 s h1
    · exact Or.inr h2
  · intro path depth m seen s hs
    simp [analyzeProperties] at hs
    exact Or.inl hs
  · intro path depth m seen key value rest child_path hin ih s hs
    simp only [analyzeProperties, if_pos hin] at hs
    exact ih s hs
  · intro path depth m seen key value rest child_path hnot r ih1 ih2 s hs
    simp only [analyzeProperties, if_neg hnot] at hs
    rcases ih2 s hs with h1 | h2
    · rcases ih1 s h1 with h3 | h4
      · rcases List.mem_cons.1 h3 with h5 | h6
        · exact Or.inr ⟨path, key, h5⟩
        · exact Or.inl h6
      · exact Or.inr h4
    · exact Or.inr h2

theorem analyzeT_proj (v : JsonValue) (path : String) (depth max_depth : Nat)
    (seen : List String) :
    (analyzeT v path depth max_depth seen).1 = analyze_structure v path depth max_depth seen := by
  refine analyzeT.induct
    (fun v path depth m seen =>
      (analyzeT v path depth m seen).1 = analyze_structure v path depth m seen)
    (fun l path depth m seen =>
      (analyzePropertiesT l path depth m seen).1 = analyzeProperties l path depth m seen)
    (fun l c i path depth m seen =>
      (analyzeItemsT l c i path depth m seen).1 = analyzeItems l c i path depth m seen)
    ?_ ?_ ?_ ?_ ?_ ?_ ?_ ?_ ?_ ?_ ?_ ?_ ?_ ?_ ?_ ?_ v path depth max_depth seen
  · intro t path depth m seen h
    cases t <;> simp [analyzeT, analyze_structure, h]
  · intro path depth m seen hnd xs hpos sample_size ih
    simp only [analyzeT, analyze_structure, if_neg hnd, if_pos hpos, ih]
  · intro path depth m seen hnd xs hneg
    simp only [analyzeT, analyze_structure, if_neg hnd, if_neg hneg]
  · intro path depth m seen hnd kvs ih
    simp only [analyzeT, analyze_structure, if_neg hnd, ih]
  · intro path depth m seen hnd s
    simp [analyzeT, analyze_structure, hnd]
  · intro path depth m seen hnd
    simp [analyzeT, analyze_structure, hnd]
  · intro path depth m seen hnd b
    simp [analyzeT, analyze_structure, hnd]
  · intro path depth m seen hnd n
    simp [analyzeT, analyze_structure, hnd]
  · intro path depth m seen hnd q
    simp [analyzeT, analyze_structure, hnd]
  · intro path depth m seen hnd t
    simp [analyzeT, analyze_structure, hnd]
  · intro t i path depth m seen
    simp [analyzeItemsT, analyzeItems]
  · intro i path depth m seen n
    simp [analyzeItemsT, analyzeItems]
  · intro i path depth m seen c x rest r ih1 ih2
    simp only [analyzeItemsT, analyzeItems]
    rw [ih1] at ih2 ⊢
    rw [ih2]
  · intro path depth m seen
    simp [analyzePropertiesT, analyzeProperties]
  · intro path depth m seen key value rest child_path hin ih
    simp only [analyzePropertiesT, analyzeProperties, if_pos hin]
    exact ih
  · intro path depth m seen key value rest child_path hnot r ih1 ih2
    simp only [analyzePropertiesT, analyzeProperties, if_neg hnot]
    rw [ih1] at ih2 ⊢
    rw [ih2]

theorem analyzeT_path_mem (v : JsonValue) (path : String) (depth max_depth : Nat)
    (seen : List String) : path ∈ (analyzeT v path depth max_depth seen).2 := by
  by_cases h : depth > max_depth <;>
    cases v <;> simp [analyzeT, h] <;> (repeat' split) <;> simp

theorem analyzeItemsT_path_mem (l : List JsonValue) (count i : Nat) (path : String)
    (depth max_depth : Nat) (seen : List String) (j : Nat) (hj : j < min count l.length) :
    (path ++ "[" ++ toString (i + j) ++ "]") ∈
      (analyzeItemsT l count i path depth max_depth seen).2 := by
  induction l generalizing count i seen j with
  | nil => simp at hj
  | cons x rest ih =>
    cases count with
    | zero => simp at hj
    | succ c =>
      cases j with
      | zero =>
        simp only [analyzeItemsT, Nat.add_zero]
        exact List.mem_append_left _ (analyzeT_path_mem x _ _ _ _)
      | succ j' =>
        have harg : i + (j' + 1) = (i + 1) + j' := by omega
        have hj' : j' < min c rest.length := by
          rcases Nat.lt_min.1 hj with ⟨h1, h2⟩
          exact Nat.lt_min.2 ⟨by omega, by simpa using Nat.lt_of_succ_lt_succ h2⟩
        rw [harg]
        simp only [analyzeItemsT]
        exact List.mem_append_right _ (ih _ _ _ _ hj')

/-- C1: within the depth limit, the descriptor's kind (its `type` field)
equals `get_type_name` applied to the value, and the classification keeps
booleans distinct from integers and integers distinct from floating-point
numbers (first-match-wins precedence null → boolean → integer → number →
string → array → object → fallback raw type name). -/
theorem C1_kind_matches_classification :
    (∀ (v : JsonValue) (path : String) (depth max_depth : Nat) (seen : List String),
      depth ≤ max_depth →
      ((analyze_structure v path depth max_depth seen).1).type = get_type_name v)
    ∧ (∀ b, get_type_name (.bool b) = "boolean")
    ∧ (∀ n, get_type_name (.int n) = "integer")
    ∧ (∀ q, get_type_name (.num q) = "number")
    ∧ get_type_name .null = "null"
    ∧ (∀ t, get_type_name (.other t) = t) :=
  ⟨analyze_type_eq, fun _ => rfl, fun _ => rfl, fun _ => rfl, rfl, fun _ => rfl⟩

theorem C1_witness :
    ((analyze_structure (.bool true) "root" 0 5 []).1).type = "boolean" :=
  (C1_kind_matches_classification.1 (.bool true) "root" 0 5 [] (by decide)).trans rfl

/-- C3: the analyzer returns the `truncated` sentinel exactly when
`depth > max_depth`, and in that case it returns immediately — the result
is `(truncatedDesc, seen)` whatever the value is, without inspecting it. -/
theorem C3_depth_truncation :
    ∀ (v : JsonValue) (path : String) (depth max_depth : Nat) (seen : List String),
      (((analyze_structure v path depth max_depth seen).1 = truncatedDesc) ↔
        depth > max_depth)
      ∧ (depth > max_depth →
          analyze_structure v path depth max_depth seen = (truncatedDesc, seen)) := by
  intro v path depth m seen
  constructor
  · constructor
    · intro he
      by_contra hc
      have h1 := analyze_note_none v path depth m seen (by omega)
      rw [he] at h1
      simp [truncatedDesc, Descriptor.note] at h1
    · intro hgt
      cases v <;> simp [analyze_structure, hgt]
  · intro hgt
    cases v <;> simp [analyze_structure, hgt]

theorem C3_witness :
    ((analyze_structure .null "root" 6 5 []).1 = truncatedDesc)
    ∧ analyze_structure (.arr [.int 1]) "root" 6 5 [] = (truncatedDesc, []) :=
  ⟨(C3_depth_truncation .null "root" 6 5 []).1.mpr (by decide),
   (C3_depth_truncation (.arr [.int 1]) "root" 6 5 []).2 (by decide)⟩

/-- C4: within the depth limit, a string value's descriptor carries
`sample` equal to the string itself when its length is at most 50, and
otherwise the first 47 characters followed by the 3-character ellipsis
marker, for a sample of exactly 50 characters. -/
theorem C4_string_sample :
    ∀ (s : String) (path : String) (depth max_depth : Nat) (seen : List String),
      depth ≤ max_depth →
      (((analyze_structure (.str s) path depth max_depth seen).1).sample =
          some (if s.length > 50 then s.take 47 ++ "..." else s))
      ∧ (s.length ≤ 50 →
          ((analyze_structure (.str s) path depth max_depth seen).1).sample = some s)
      ∧ (50 < s.length →
          ∃ t, ((analyze_structure (.str s) path depth max_depth seen).1).sample = some t
            ∧ t = s.take 47 ++ "..." ∧ t.length = 50 ∧ ("..." : String).length = 3) := by
  intro s path depth m seen h
  rw [analyze_str_eq s path depth m seen h]
  refine ⟨rfl, ?_, ?_⟩
  · intro hle
    have hng : ¬ s.length > 50 := by omega
    simp [Descriptor.sample, hng]
  · intro hgt
    refine ⟨s.take 47 ++ "...", ?_, rfl, ?_, rfl⟩
    · simp [Descriptor.sample, hgt]
    · rw [String.length_append, String.take_eq, strlen_mk, List.length_take]
      have hdata : s.data.length = s.length := rfl
      have h3 : ("..." : String).length = 3 := rfl
      omega

theorem C4_witness :
    ((analyze_structure (.str "hi") "root" 0 5 []).1).sample = some "hi" :=
  (C4_string_sample "hi" "root" 0 5 [] (by decide)).2.1 (by decide)

/-- C10: within the depth limit, an object's descriptor always carries a
`properties` mapping — the result of the key loop — and it is present as
an empty mapping (not absent) when the object has no keys. -/
theorem C10_properties_always_present :
    ∀ (kvs : List (String × JsonValue)) (path : String) (depth max_depth : Nat)
      (seen : List String), depth ≤ max_depth →
      (((analyze_structure (.obj kvs) path depth max_depth seen).1).properties =
        some (analyzeProperties kvs path depth max_depth seen).1)
      ∧ (((analyze_structure (.obj []) path depth max_depth seen).1).properties =
        some []) := by
  intro kvs path depth m seen h
  constructor
  · rw [analyze_obj_eq kvs path depth m seen h]
    rfl
  · rw [analyze_obj_eq [] path depth m seen h]
    simp [analyzeProperties, Descriptor.properties]

theorem C10_witness :
    ((analyze_structure (.obj []) "root" 0 5 []).1).properties = some [] :=
  (C10_properties_always_present [] "root" 0 5 [] (by decide)).2

/-- C5 (counterexample): the claim "exactly one of the optional field groups
is populated on every descriptor" fails at the integer value `1`, whose
descriptor populates none of the groups. -/
theorem C5_counterexample :
    populatedGroups ((analyze_structure (.int 1) "root" 0 5 []).1) ≠ 1 := by decide

/-- C5 (amended): within the depth limit at most one group is populated,
determined by the value's classification — `sample` exactly on strings,
`length` exactly on arrays (`items` additionally requiring non-emptiness),
`properties` exactly on objects — and no non-truncated descriptor carries
the extra `note` field (only the truncated sentinel does). -/
theorem C5_field_population :
    ∀ (v : JsonValue) (path : String) (depth max_depth : Nat) (seen : List String),
      depth ≤ max_depth →
      (((analyze_structure v path depth max_depth seen).1).note = none)
      ∧ (((analyze_structure v path depth max_depth seen).1).sample.isSome ↔
          ∃ s, v = .str s)
      ∧ (((analyze_structure v path depth max_depth seen).1).length.isSome ↔
          ∃ xs, v = .arr xs)
      ∧ (((analyze_structure v path depth max_depth seen).1).items.isSome ↔
          ∃ xs, v = .arr xs ∧ xs ≠ [])
      ∧ (((analyze_structure v path depth max_depth seen).1).properties.isSome ↔
          ∃ kvs, v = .obj kvs)
      ∧ populatedGroups ((analyze_structure v path depth max_depth seen).1) ≤ 1
      ∧ truncatedDesc.note = some "max depth reached" := by
  intro v path depth m seen h
  obtain ⟨hs, hl, hi, hp⟩ := analyze_fields v path depth m seen h
  refine ⟨analyze_note_none v path depth m seen h, hs, hl, hi, hp, ?_, rfl⟩
  unfold populatedGroups
  cases v <;> simp_all

theorem C5_witness :
    ((analyze_structure (.str "hi") "root" 0 5 []).1).note = none
    ∧ populatedGroups ((analyze_structure (.str "hi") "root" 0 5 []).1) ≤ 1 :=
  ⟨(C5_field_population (.str "hi") "root" 0 5 [] (by decide)).1,
   (C5_field_population (.str "hi") "root" 0 5 [] (by decide)).2.2.2.2.2.1⟩

/-- C2: array handling.  An empty array yields `length 0` and no `items`.
A non-empty array samples the first `min 3 length` elements (one
descriptor per sampled index, produced by the sampling loop at
`depth + 1`), records the full array length, and collapses `items` to the
single shared head descriptor exactly when every sampled descriptor is
deep-equal (Python `==`) to the first, keeping the ordered sample list
otherwise; the result never depends on elements beyond index 2.  In
particular `[1, 2, 3, 4]` collapses to one integer item and
`[1, "a", true]` keeps the three sampled descriptors. -/
theorem C2_array_sampling :
    (∀ (path : String) (depth max_depth : Nat) (seen : List String),
      depth ≤ max_depth →
      analyze_structure (.arr []) path depth max_depth seen =
        (.mk "array" none none (some 0) none none, seen))
    ∧ (∀ (xs : List JsonValue) (path : String) (depth max_depth : Nat)
        (seen : List String), depth ≤ max_depth →
        ((analyzeItems xs (min 3 xs.length) 0 path depth max_depth seen).1).length =
          min 3 xs.length
        ∧ ((analyze_structure (.arr xs) path depth max_depth seen).1).length =
          some xs.length
        ∧ (∀ (s0 : Descriptor) (rest : List Descriptor),
            (analyzeItems xs (min 3 xs.length) 0 path depth max_depth seen).1 =
              s0 :: rest →
            ((analyze_structure (.arr xs) path depth max_depth seen).1).items =
              if ∀ s ∈ s0 :: rest, pyEq s s0 = true then some (.inl s0)
              else some (.inr (s0 :: rest))))
    ∧ (∀ (xs ys : List JsonValue) (path : String) (depth max_depth : Nat)
        (seen : List String), ys.length = xs.length → ys.take 3 = xs.take 3 →
        analyze_structure (.arr ys) path depth max_depth seen =
          analyze_structure (.arr xs) path depth max_depth seen)
    ∧ (analyzeRoot (.arr [.int 1, .int 2, .int 3, .int 4]) =
        .mk "array" none none (some 4)
          (some (.inl (.mk "integer" none none none none none))) none)
    ∧ (analyzeRoot (.arr [.int 1, .str "a", .bool true]) =
        .mk "array" none none (some 3)
          (some (.inr [.mk "integer" none none none none none,
            .mk "string" none (some "a") none none none,
            .mk "boolean" none none none none none])) none) := by
  refine ⟨?_, ?_, ?_, by decide, by decide⟩
  · intro path depth m seen h
    have hnd : ¬ depth > m := by omega
    simp [analyze_structure, hnd, get_type_name]
  · intro xs path depth m seen h
    refine ⟨?_, analyze_arr_length xs path depth m seen h,
      fun s0 rest h0 => analyze_arr_items xs path depth m seen s0 rest h h0⟩
    rw [analyzeItems_length, Nat.min_assoc, Nat.min_self]
  · intro xs ys path depth m seen hlen htake
    by_cases hd : depth > m
    · cases hx : xs <;> cases hy : ys <;>
        simp [analyze_structure, hd]
    · have hnd : ¬ depth > m := hd
      have hss : min 3 ys.length = min 3 xs.length := by rw [hlen]
      have hitems : analyzeItems ys (min 3 ys.length) 0 path depth m seen =
          analyzeItems xs (min 3 xs.length) 0 path depth m seen := by
        rw [analyzeItems_take ys, analyzeItems_take xs, hss]
        have h1 : ys.take (min 3 xs.length) = (ys.take 3).take (min 3 xs.length) := by
          rw [List.take_take]
          congr 1
          omega
        have h2 : xs.take (min 3 xs.length) = (xs.take 3).take (min 3 xs.length) := by
          rw [List.take_take]
          congr 1
          omega
        rw [h1, h2, htake]
      simp only [analyze_structure, if_neg hnd, get_type_name]
      rw [hitems, hlen]

theorem C2_witness :
    analyze_structure (.arr []) "root" 0 5 [] =
      (.mk "array" none none (some 0) none none, [])
    ∧ ((analyze_structure (.arr [.int 7]) "root" 0 5 []).1).length = some 1 :=
  ⟨C2_array_sampling.1 "root" 0 5 [] (by decide),
   (C2_array_sampling.2.1 [.int 7] "root" 0 5 [] (by decide)).2.1⟩

/-- C6 (counterexample): on the conforming document
`{"a[0]": 1, "a": [2]}` the dotted path `root.a[0]` is analyzed twice in
one run — once as the child of key `"a[0]"` and once as element 0 of
array `"a"` — so a path is not analyzed at most once. -/
theorem C6_counterexample :
    conforming (.obj [("a[0]", .int 1), ("a", .arr [.int 2])]) = true
    ∧ ((analyzeT (.obj [("a[0]", .int 1), ("a", .arr [.int 2])]) "root" 0 5 []).2).count
        "root.a[0]" = 2 := by
  constructor
  · decide
  · decide

/-- C6 (amended): object-key child paths are analyzed through the guarded
key branch at most once per run — `seen_paths` only grows, stays
duplicate-free, and a key whose identical child path was already seen is
skipped and omitted from `properties` — while the instrumented analyzer
agrees with the plain one (array-element paths are simply not guarded). -/
theorem C6_path_guarding :
    (∀ (v : JsonValue) (path : String) (depth max_depth : Nat) (seen : List String),
      seen <:+ (analyze_structure v path depth max_depth seen).2)
    ∧ (∀ (v : JsonValue) (path : String) (depth max_depth : Nat) (seen : List String),
        seen.Nodup → ((analyze_structure v path depth max_depth seen).2).Nodup)
    ∧ (∀ (key : String) (value : JsonValue) (rest : List (String × JsonValue))
        (path : String) (depth max_depth : Nat) (seen : List String),
        (path ++ "." ++ key) ∈ seen →
        analyzeProperties ((key, value) :: rest) path depth max_depth seen =
          analyzeProperties rest path depth max_depth seen)
    ∧ (∀ (v : JsonValue) (path : String) (depth max_depth : Nat) (seen : List String),
        (analyzeT v path depth max_depth seen).1 =
          analyze_structure v path depth max_depth seen) := by
  refine ⟨analyze_seen_suffix, analyze_seen_nodup, ?_, analyzeT_proj⟩
  intro key value rest path depth m seen hin
  simp only [analyzeProperties, if_pos hin]

theorem C6_witness :
    ((analyze_structure (.obj [("a", .null)]) "root" 0 5 []).2).Nodup
    ∧ analyzeProperties [("a", .null)] "root" 0 5 ["root.a"] =
        analyzeProperties [] "root" 0 5 ["root.a"] :=
  ⟨C6_path_guarding.2.1 (.obj [("a", .null)]) "root" 0 5 [] (by decide),
   C6_path_guarding.2.2.1 "a" .null [] "root" 0 5 ["root.a"] (by decide)⟩

/-- C7 (counterexample): on the conforming document
`{"a": {"x": 1}, "a.x": 2}` duplicate-path suppression fires — the key
`"a.x"` is missing from the analyzed `properties` — so the suppression
branch is not dead logic on conforming input. -/
theorem C7_counterexample :
    conforming dupPathDoc = true
    ∧ dupPathDoc = .obj [("a", .obj [("x", .int 1)]), ("a.x", .int 2)]
    ∧ "a.x" ∉ (((analyzeRoot dupPathDoc).properties).getD []).map Prod.fst := by
  refine ⟨by decide, rfl, by decide⟩

/-- C7 (amended): duplicate-path suppression is reachable on conforming
JSON: the dotted path of the root key `"a.x"` coincides with the path of
the nested key `"x"` inside object `"a"`, and the analysis of
`{"a": {"x": 1}, "a.x": 2}` keeps only the key `"a"`. -/
theorem C7_duplicate_path_reachable :
    conforming dupPathDoc = true
    ∧ (((analyzeRoot dupPathDoc).properties).getD []).map Prod.fst = ["a"]
    ∧ ("root" ++ "." ++ "a.x") = (("root" ++ "." ++ "a") ++ "." ++ "x") := by
  refine ⟨by decide, by decide, by decide⟩

/-- C8: the renderer uses two spaces per indent level, emits non-container
kinds inline as the kind name followed by ` (e.g., "<sample>")` when a
sample is present, and on `{"a": 1, "b": [1,2,3], "c": "hi"}` produces the
`Object` block with `a: integer`, the nested `Array[3]` block with a
single `items: integer`, and `c: string (e.g., "hi")`. -/
theorem C8_rendering :
    (∀ i, (indentStr i).length = 2 * i)
    ∧ (∀ (s : String) (i : Nat),
        print_structure (.mk "string" none (some s) none none none) i =
          indentStr i ++ "string" ++ (" (e.g., \"" ++ s ++ "\")"))
    ∧ (print_structure
        (analyzeRoot (.obj [("a", .int 1), ("b", .arr [.int 1, .int 2, .int 3]),
          ("c", .str "hi")])) 0 =
        "Object \x7b\n  a: integer\n  b:\n    Array[3] \x7b\n      items:\n        integer    \x7d\n  c: string (e.g., \"hi\")\n\x7d\n") := by
  refine ⟨?_, ?_, by decide⟩
  · intro i
    induction i with
    | zero => rfl
    | succ n ih =>
      simp only [indentStr, String.length_append, ih]
      have h2 : ("  " : String).length = 2 := rfl
      omega
  · intro s i
    simp [print_structure]

theorem C9_helper_min (xs : List JsonValue) (j : Nat) (hj : j < min 3 xs.length) :
    j < min (min 3 xs.length) xs.length := by
  rcases Nat.lt_min.1 hj with ⟨h1, h2⟩
  exact Nat.lt_min.2 ⟨hj, h2⟩

/-- C9: `seen_paths` is only ever extended with object-key child paths of
the form `parent ++ "." ++ key`; the sampling loop produces one descriptor
per sampled element whatever `seen` contains (so array elements are never
suppressed), and every sampled element path occurs in the call trace of
its enclosing array's analysis, for every `seen` — even one that already
contains that path. -/
theorem C9_seen_only_object_paths :
    (∀ (v : JsonValue) (path : String) (depth max_depth : Nat) (seen : List String),
      ∀ s ∈ (analyze_structure v path depth max_depth seen).2,
        s ∈ seen ∨ ∃ q k, s = q ++ "." ++ k)
    ∧ (∀ (l : List JsonValue) (count i : Nat) (path : String) (depth max_depth : Nat)
        (seen : List String),
        ((analyzeItems l count i path depth max_depth seen).1).length =
          min count l.length)
    ∧ (∀ (xs : List JsonValue) (path : String) (depth max_depth : Nat)
        (seen : List String) (j : Nat), depth ≤ max_depth → j < min 3 xs.length →
        (path ++ "[" ++ toString j ++ "]") ∈
          (analyzeT (.arr xs) path depth max_depth seen).2) := by
  refine ⟨analyze_seen_additions, analyzeItems_length, ?_⟩
  intro xs path depth m seen j hle hj
  have hpos : 0 < xs.length :=
    Nat.pos_of_ne_zero (fun hz => by
      rw [hz] at hj
      simp at hj)
  have hnd : ¬ depth > m := by omega
  simp only [analyzeT, if_neg hnd, if_pos hpos]
  refine List.mem_cons_of_mem _ ?_
  have := analyzeItemsT_path_mem xs (min 3 xs.length) 0 path depth m seen j
    (C9_helper_min xs j hj)
  simpa using this

theorem C9_witness :
    ("root" ++ "[" ++ toString 0 ++ "]") ∈ (analyzeT (.arr [.int 5]) "root" 0 5 []).2 :=
  C9_seen_only_object_paths.2.2 [.int 5] "root" 0 5 [] 0 (by decide) (by decide)
